import Mathlib

/-
Verification of the simplon-group-generator program (src/main.mjs).

The program reads an optional previous grouping from `last_brief.json`
(`null` when the file is missing), reads a participant pool from
`students.json`, and then runs

    let groups = []
    do {
      while (peoples.length > 0) {
        const leader = peoples.pop()
        const index = Math.floor(Math.random() * peoples.length) - 1
        const [member] = peoples.splice(index, 1)
        groups = [...groups, [leader, member]]
      }
    } while (hasSameGroup(groups, last_brief))
    fs.writeFileSync(FILE_PATH, JSON.stringify(groups))

with

    function hasSameGroup(group, last_brief) {
      if (last_brief == null) return false
      return Object.values(last_brief)
        .some(oneGroup => group.every(people => oneGroup.includes(people)))
    }

The embedding below models JavaScript values that occur in this program
(strings, null, undefined and arrays), the exact splice / pop / random-index
arithmetic, `hasSameGroup`, and the do-while retry loop (fuel-indexed:
`none` means the loop has not terminated within the given number of
iterations; each loop iteration consumes one unit of fuel and the inner
while loop always terminates, so non-termination of the program is exactly
`none` for every fuel).
-/

/-- Dynamic JavaScript values occurring in this program: participant
identifier strings, `null` (a parsed JSON null), `undefined` (the result of
destructuring an empty splice result), and arrays. -/
inductive JSVal where
  | str : String → JSVal
  | null : JSVal
  | undef : JSVal
  | arr : List JSVal → JSVal

/-- JavaScript SameValueZero equality, as used by `Array.prototype.includes`,
restricted to the values of this program. Strings compare by content;
`null` and `undefined` compare to themselves. Arrays compare by object
identity; every array comparison this program performs is between a pair
array freshly built by the current run (`[leader, member]`) and a value
obtained from `JSON.parse` of the state file, which are never the same
object, so array comparisons are `false`. -/
def sameValueZero : JSVal → JSVal → Bool
  | .str a, .str b => a == b
  | .null, .null => true
  | .undef, .undef => true
  | _, _ => false

/-- JavaScript `a.includes(x)` on an array `a`: some element of `a` is
SameValueZero-equal to `x`. -/
def jsIncludes (a : List JSVal) (x : JSVal) : Bool :=
  a.any fun e => sameValueZero e x

/-- The collision check of src/main.mjs lines 13-24. `group` is the list of
candidate pairs (each pair is the JS array `arr people`), `last_brief` the
parsed state file (`none` when the file is missing). Mirrors
`Object.values(last_brief).some(oneGroup => group.every(people =>
oneGroup.includes(people)))`: `Object.values` of a parsed array of pairs is
the list of its pair arrays. -/
def hasSameGroup (group : List (List JSVal)) (last_brief : Option (List (List JSVal))) : Bool :=
  match last_brief with
  | none => false
  | some lb => lb.any fun oneGroup => group.all fun people => jsIncludes oneGroup (.arr people)

/-- JavaScript `l.splice(start, 1)`: returns the (at most one) removed
element and the remaining list. A negative `start` counts from the end
(clamped at 0); a `start` at or past the end removes nothing. -/
def jsSplice1 (l : List JSVal) (start : Int) : Option JSVal × List JSVal :=
  let len := l.length
  let actual : Nat := if start < 0 then ((len : Int) + start).toNat else min start.toNat len
  if h : actual < len then (some (l.get ⟨actual, h⟩), l.take actual ++ l.drop (actual + 1))
  else (none, l)

/-- One pass of the inner `while (peoples.length > 0)` loop of src/main.mjs
lines 29-34, fuel-indexed to stay structurally recursive. `rnd k m` stands
for `Math.floor(Math.random() * m)` at the k-th draw, so the spliced index
is `rnd k m - 1`. Each iteration `pop`s the last element as leader, splices
one member out of the rest (`undefined` when the rest is empty), and
appends the pair `[leader, member]` to the accumulated `groups`. Each
iteration removes at least the popped element, so fuel `peoples.length`
always reaches the empty list (see `buildGroupsAux_fuel_succ`). -/
def buildGroupsAux (rnd : Nat → Nat → Nat) : Nat → Nat → List JSVal → List (List JSVal) → List (List JSVal)
  | 0, _, _, acc => acc
  | _ + 1, _, [], acc => acc
  | fuel + 1, k, p :: ps, acc =>
    let leader := (p :: ps).getLast (List.cons_ne_nil p ps)
    let rest := (p :: ps).dropLast
    let r := rnd k rest.length
    let s := jsSplice1 rest ((r : Int) - 1)
    let member := s.1.getD JSVal.undef
    buildGroupsAux rnd fuel (k + 1) s.2 (acc ++ [[leader, member]])

/-- The inner pairing loop run to completion: fuel `peoples.length`
suffices (the while loop strictly shrinks `peoples` each iteration). -/
def buildGroups (rnd : Nat → Nat → Nat) (k : Nat) (peoples : List JSVal) (acc : List (List JSVal)) : List (List JSVal) :=
  buildGroupsAux rnd peoples.length k peoples acc

/-- The `do { ... } while (hasSameGroup(groups, last_brief))` loop of
src/main.mjs lines 28-35, fuel-indexed: `none` means the loop has not
terminated within `fuel` iterations. After the first iteration `peoples`
has been drained to `[]` and `groups` is NOT reset (the source declares
`let groups = []` once, before the loop), so the retry iteration receives
the empty working list and the accumulated groups unchanged. -/
def mainLoop (rnd : Nat → Nat → Nat) (last_brief : Option (List (List JSVal))) : Nat → List JSVal → List (List JSVal) → Option (List (List JSVal))
  | 0, _, _ => none
  | fuel + 1, peoples, groups =>
    let groups2 := buildGroups rnd 0 peoples groups
    if hasSameGroup groups2 last_brief then mainLoop rnd last_brief fuel [] groups2
    else some groups2

/-- The whole generation phase of the program: the do-while loop started on
the full pool with the empty `groups` accumulator. `some g` is the grouping
that is then persisted to the state file and printed. -/
def runProgram (rnd : Nat → Nat → Nat) (peoples : List JSVal) (last_brief : Option (List (List JSVal))) (fuel : Nat) : Option (List (List JSVal)) :=
  mainLoop rnd last_brief fuel peoples []

/-- Modelled from the spec (its section 3 invariant), for comparison with
the code's `hasSameGroup`: a Grouping collides with the previous grouping
when there exists a Pair in the new Grouping such that both its members
also co-occur together in some Pair of the previous grouping. -/
def specCollision (group prev : List (List JSVal)) : Bool :=
  group.any fun pair => prev.any fun oneGroup => pair.all fun member => jsIncludes oneGroup member

/-- JSON round-trip of one persisted value: `JSON.stringify` serializes an
`undefined` array element as `null`, and strings and `null` survive
unchanged, so re-parsing the state file maps `undefined` to `null` and is
the identity elsewhere. -/
def roundTripVal : JSVal → JSVal
  | .undef => .null
  | v => v

/-- JSON round-trip of the persisted grouping (an array of pair arrays):
elementwise `roundTripVal`. -/
def roundTripGrouping (g : List (List JSVal)) : List (List JSVal) :=
  g.map (List.map roundTripVal)

/-- A deterministic random-index provider: every `Math.floor(Math.random()
* m)` draw returns 0. Used to instantiate concrete runs. -/
def rnd0 : Nat → Nat → Nat := fun _ _ => 0

/-- Validity of a random-index provider: `Math.floor(Math.random() * m)`
always lies below `m` (and is 0 when `m = 0`), i.e. it is at most `m - 1`
in truncated subtraction. -/
def ValidRnd (rnd : Nat → Nat → Nat) : Prop :=
  ∀ k m, rnd k m ≤ m - 1

theorem rnd0_valid : ValidRnd rnd0 := fun _ _ => Nat.zero_le _

theorem jsIncludes_arr (og : List JSVal) (p : List JSVal) : jsIncludes og (.arr p) = false := by
  rw [jsIncludes, List.any_eq_false]
  intro e _
  cases e <;> simp [sameValueZero]

theorem hasSameGroup_eq_false_of_ne_nil (g : List (List JSVal))
    (hg : g ≠ []) (lb : Option (List (List JSVal))) : hasSameGroup g lb = false := by
  cases lb with
  | none => rfl
  | some l =>
    rw [hasSameGroup, List.any_eq_false]
    intro og _
    obtain ⟨p, t, rfl⟩ := List.exists_cons_of_ne_nil hg
    simp [jsIncludes_arr]

theorem hasSameGroup_nil_some (lb : List (List JSVal)) :
    hasSameGroup [] (some lb) = !lb.isEmpty := by
  rw [hasSameGroup]
  induction lb with
  | nil => rfl
  | cons og t _ => simp

theorem jsSplice1_nil (s : Int) : jsSplice1 [] s = (none, []) := by
  unfold jsSplice1
  simp

theorem jsSplice1_snd_length_le (l : List JSVal) (s : Int) :
    (jsSplice1 l s).2.length ≤ l.length := by
  simp only [jsSplice1]
  repeat' split
  all_goals
    first
      | exact Nat.le_refl _
      | (dsimp only
         simp only [List.length_append, List.length_take, List.length_drop]
         omega)

theorem jsSplice1_removes_one (l : List JSVal) (r : Nat) (hl : l ≠ [])
    (hr : r ≤ l.length - 1) :
    ∃ x t, jsSplice1 l ((r : Int) - 1) = (some x, t) ∧ List.Perm (x :: t) l := by
  have hlen : 1 ≤ l.length := List.length_pos.mpr hl
  have key : ∀ (a : Nat) (h : a < l.length),
      List.Perm (l.get ⟨a, h⟩ :: (l.take a ++ l.drop (a + 1))) l := by
    intro a h
    have hsplit : l.take a ++ l.get ⟨a, h⟩ :: l.drop (a + 1) = l := by
      simp only [List.get_eq_getElem]
      rw [List.getElem_cons_drop, List.take_append_drop]
    conv_rhs => rw [← hsplit]
    exact List.perm_middle.symm
  rcases Nat.eq_zero_or_pos r with hr0 | hrpos
  · subst hr0
    have hneg : ((0 : Nat) : Int) - 1 < 0 := by omega
    have hact : (((l.length : Int) + (((0 : Nat) : Int) - 1))).toNat = l.length - 1 := by omega
    have hlt : l.length - 1 < l.length := by omega
    refine ⟨l.get ⟨l.length - 1, hlt⟩, l.take (l.length - 1) ++ l.drop (l.length - 1 + 1), ?_, key _ hlt⟩
    unfold jsSplice1
    simp only [if_pos hneg, hact]
    rw [dif_pos hlt]
  · have hnneg : ¬ ((r : Int) - 1 < 0) := by omega
    have hact : ((r : Int) - 1).toNat = r - 1 := by omega
    have hlt : r - 1 < l.length := by omega
    have hmin : min (r - 1) l.length = r - 1 := Nat.min_eq_left (Nat.le_of_lt hlt)
    refine ⟨l.get ⟨r - 1, hlt⟩, l.take (r - 1) ++ l.drop (r - 1 + 1), ?_, key _ hlt⟩
    unfold jsSplice1
    simp only [if_neg hnneg, hact, hmin]
    rw [dif_pos hlt]

theorem buildGroupsAux_nil (rnd : Nat → Nat → Nat) (fuel k : Nat) (acc : List (List JSVal)) :
    buildGroupsAux rnd fuel k [] acc = acc := by
  cases fuel <;> rfl

theorem buildGroupsAux_extends_acc (rnd : Nat → Nat → Nat) :
    ∀ (fuel k : Nat) (ps : List JSVal) (acc : List (List JSVal)),
    ∃ t, buildGroupsAux rnd fuel k ps acc = acc ++ t ∧
      (ps ≠ [] → 1 ≤ fuel → t ≠ []) ∧
      (∀ p ∈ t, ∃ a b, p = [a, b]) := by
  intro fuel
  induction fuel with
  | zero =>
    intro k ps acc
    exact ⟨[], by simp [buildGroupsAux], by simp, by simp⟩
  | succ fuel ih =>
    intro k ps acc
    cases ps with
    | nil => exact ⟨[], by simp [buildGroupsAux], by simp, by simp⟩
    | cons p ps' =>
      rw [buildGroupsAux]
      obtain ⟨t, ht, _, hpairs⟩ := ih (k + 1)
        (jsSplice1 ((p :: ps').dropLast) ((rnd k ((p :: ps').dropLast).length : Int) - 1)).2
        (acc ++ [[(p :: ps').getLast (List.cons_ne_nil p ps'),
          (jsSplice1 ((p :: ps').dropLast) ((rnd k ((p :: ps').dropLast).length : Int) - 1)).1.getD JSVal.undef]])
      refine ⟨[(p :: ps').getLast (List.cons_ne_nil p ps'),
          (jsSplice1 ((p :: ps').dropLast) ((rnd k ((p :: ps').dropLast).length : Int) - 1)).1.getD JSVal.undef] :: t,
        ?_, by simp, ?_⟩
      · rw [ht]
        simp
      · intro q hq
        rcases List.mem_cons.mp hq with h | h
        · exact ⟨_, _, h⟩
        · exact hpairs q h

theorem buildGroupsAux_fuel_succ (rnd : Nat → Nat → Nat) :
    ∀ (fuel k : Nat) (ps : List JSVal) (acc : List (List JSVal)), ps.length ≤ fuel →
    buildGroupsAux rnd (fuel + 1) k ps acc = buildGroupsAux rnd fuel k ps acc := by
  intro fuel
  induction fuel with
  | zero =>
    intro k ps acc h
    rw [List.length_eq_zero.mp (Nat.le_zero.mp h)]
    rfl
  | succ fuel ih =>
    intro k ps acc h
    cases ps with
    | nil => rfl
    | cons p ps' =>
      rw [buildGroupsAux, buildGroupsAux]
      apply ih
      have h1 := jsSplice1_snd_length_le ((p :: ps').dropLast)
        ((rnd k ((p :: ps').dropLast).length : Int) - 1)
      have h2 : (p :: ps').dropLast.length = ps'.length := by
        simp [List.length_dropLast]
      simp only [List.length_cons] at h
      omega

theorem buildGroupsAux_partition (rnd : Nat → Nat → Nat) (hrnd : ValidRnd rnd) :
    ∀ (fuel : Nat) (ps : List JSVal) (k : Nat) (acc : List (List JSVal)), ps.length ≤ fuel →
    ∃ pairs : List (List JSVal),
      buildGroupsAux rnd fuel k ps acc = acc ++ pairs ∧
      pairs.length = (ps.length + 1) / 2 ∧
      (∀ p ∈ pairs, ∃ a b, p = [a, b]) ∧
      (Even ps.length → List.Perm pairs.flatten ps) ∧
      (¬ Even ps.length → ∃ pairs0 x, pairs = pairs0 ++ [[x, JSVal.undef]] ∧
        List.Perm (pairs0.flatten ++ [x]) ps) := by
  intro fuel
  induction fuel with
  | zero =>
    intro ps k acc h
    rw [List.length_eq_zero.mp (Nat.le_zero.mp h)]
    exact ⟨[], by simp [buildGroupsAux], by simp, by simp, by simp, by simp⟩
  | succ fuel ih =>
    intro ps k acc h
    cases ps with
    | nil => exact ⟨[], by simp [buildGroupsAux], by simp, by simp, by simp, by simp⟩
    | cons p ps' =>
      have hne : p :: ps' ≠ [] := List.cons_ne_nil p ps'
      have hps : (p :: ps').dropLast ++ [(p :: ps').getLast hne] = p :: ps' :=
        List.dropLast_append_getLast hne
      rw [buildGroupsAux]
      by_cases hrest : (p :: ps').dropLast = []
      · rw [hrest] at hps ⊢
        rw [jsSplice1_nil]
        refine ⟨[[(p :: ps').getLast hne, JSVal.undef]], ?_, ?_, ?_, ?_, ?_⟩
        · rw [buildGroupsAux_nil]
          rfl
        · have : (p :: ps').length = 1 := by
            rw [← hps]
            rfl
          rw [this]
          rfl
        · intro q hq
          rcases List.mem_cons.mp hq with hq | hq
          · exact ⟨_, _, hq⟩
          · exact absurd hq (List.not_mem_nil q)
        · intro hev
          have : (p :: ps').length = 1 := by
            rw [← hps]
            rfl
          rw [this] at hev
          exact absurd hev (by decide)
        · intro _
          refine ⟨[], (p :: ps').getLast hne, rfl, ?_⟩
          have hx : [(p :: ps').getLast hne] = p :: ps' := by simpa using hps
          rw [List.flatten_nil, List.nil_append, hx]
      · have hr : rnd k ((p :: ps').dropLast).length ≤ ((p :: ps').dropLast).length - 1 :=
          hrnd k _
        obtain ⟨x, t, heq, hperm⟩ :=
          jsSplice1_removes_one ((p :: ps').dropLast) (rnd k ((p :: ps').dropLast).length)
            hrest hr
        have hlent : t.length + 1 = ((p :: ps').dropLast).length := by
          have := hperm.length_eq
          simpa using this
        have hlenps : (p :: ps').length = t.length + 2 := by
          have : ((p :: ps').dropLast).length = (p :: ps').length - 1 := List.length_dropLast _
          simp only [List.length_cons] at this ⊢
          omega
        obtain ⟨pairs', heq', hlen', hshape', heven', hodd'⟩ :=
          ih t (k + 1) (acc ++ [[(p :: ps').getLast hne, x]])
            (by simp only [List.length_cons] at h hlenps; omega)
        rw [heq, Option.getD_some] at *
        have step : ∀ u : List JSVal, List.Perm u t →
            List.Perm ((p :: ps').getLast hne :: x :: u) (p :: ps') := by
          intro u hu
          have h2 : List.Perm (x :: u) ((p :: ps').dropLast) := (hu.cons x).trans hperm
          have h4 : List.Perm ((p :: ps').getLast hne :: (p :: ps').dropLast) (p :: ps') := by
            conv_rhs => rw [← hps]
            exact (List.perm_append_singleton _ _).symm
          exact (h2.cons _).trans h4
        refine ⟨[(p :: ps').getLast hne, x] :: pairs', ?_, ?_, ?_, ?_, ?_⟩
        · rw [heq']
          simp
        · simp only [List.length_cons, hlen', hlenps]
          omega
        · intro q hq
          rcases List.mem_cons.mp hq with hq | hq
          · exact ⟨_, _, hq⟩
          · exact hshape' q hq
        · intro hev
          have hevt : Even t.length := by
            rw [hlenps, Nat.even_add] at hev
            simpa using hev
          rw [List.flatten_cons]
          exact step pairs'.flatten (heven' hevt)
        · intro hodd
          have hoddt : ¬ Even t.length := by
            rw [hlenps, Nat.even_add] at hodd
            simpa using hodd
          obtain ⟨pairs0', x0, hsplit, hperm0⟩ := hodd' hoddt
          refine ⟨[(p :: ps').getLast hne, x] :: pairs0', x0, by rw [hsplit]; rfl, ?_⟩
          rw [List.flatten_cons]
          have : ([(p :: ps').getLast hne, x] ++ pairs0'.flatten) ++ [x0] =
              (p :: ps').getLast hne :: x :: (pairs0'.flatten ++ [x0]) := by
            simp
          rw [this]
          exact step _ hperm0

theorem countP_flatten_eq_zero (q : JSVal → Bool) (L : List (List JSVal))
    (h : L.flatten.countP q = 0) : L.countP (fun p => p.any q) = 0 := by
  induction L with
  | nil => rfl
  | cons p t ih =>
    rw [List.flatten_cons, List.countP_append] at h
    rw [List.countP_cons]
    have h1 : p.countP q = 0 := by omega
    have h2 : t.flatten.countP q = 0 := by omega
    have hany : p.any q = false := by
      rw [List.any_eq_false]
      intro x hx hqx
      exact (List.countP_eq_zero.mp h1 x hx) hqx
    rw [ih h2, hany]
    rfl

theorem countP_flatten_eq_one (q : JSVal → Bool) (L : List (List JSVal))
    (h : L.flatten.countP q = 1) : L.countP (fun p => p.any q) = 1 := by
  induction L with
  | nil => exact absurd h (by simp)
  | cons p t ih =>
    rw [List.flatten_cons, List.countP_append] at h
    rw [List.countP_cons]
    by_cases hp : p.countP q = 0
    · have h2 : t.flatten.countP q = 1 := by omega
      have hany : p.any q = false := by
        rw [List.any_eq_false]
        intro x hx hqx
        exact (List.countP_eq_zero.mp hp x hx) hqx
      rw [ih h2, hany]
      rfl
    · have h2 : t.flatten.countP q = 0 := by omega
      have hany : p.any q = true := by
        rw [List.any_eq_true]
        have hpos : 0 < p.countP q := Nat.pos_of_ne_zero hp
        obtain ⟨a, ha, hqa⟩ := List.countP_pos_iff.mp hpos
        exact ⟨a, ha, hqa⟩
      rw [countP_flatten_eq_zero q t h2, hany]
      rfl

theorem buildGroups_ne_nil (rnd : Nat → Nat → Nat) (ps : List JSVal) (h : ps ≠ []) :
    buildGroups rnd 0 ps [] ≠ [] := by
  obtain ⟨t, ht, hnnil, _⟩ := buildGroupsAux_extends_acc rnd ps.length 0 ps []
  rw [buildGroups, ht, List.nil_append]
  exact hnnil h (List.length_pos.mpr h)

/-- C3: for every non-empty participant pool, `hasSameGroup` applied to the
resulting non-empty candidate grouping and any previous grouping (absent or
not) returns false, so the do-while loop body executes exactly once and the
very first candidate grouping is the one the program persists and prints. -/
theorem loop_body_runs_exactly_once (rnd : Nat → Nat → Nat)
    (last_brief : Option (List (List JSVal))) (ps : List JSVal) (h : ps ≠ []) (fuel : Nat) :
    hasSameGroup (buildGroups rnd 0 ps []) last_brief = false ∧
    mainLoop rnd last_brief (fuel + 1) ps [] = some (buildGroups rnd 0 ps []) := by
  have hne := buildGroups_ne_nil rnd ps h
  have hfalse := hasSameGroup_eq_false_of_ne_nil _ hne last_brief
  refine ⟨hfalse, ?_⟩
  rw [mainLoop]
  simp only [hfalse]
  rfl

theorem loop_body_runs_exactly_once_witness :
    ([JSVal.str "A", JSVal.str "B"] : List JSVal) ≠ [] ∧
    (hasSameGroup (buildGroups rnd0 0 [JSVal.str "A", JSVal.str "B"] [])
        (some [[JSVal.str "A", JSVal.str "B"]]) = false ∧
      mainLoop rnd0 (some [[JSVal.str "A", JSVal.str "B"]]) 1 [JSVal.str "A", JSVal.str "B"] [] =
        some (buildGroups rnd0 0 [JSVal.str "A", JSVal.str "B"] [])) :=
  ⟨by simp,
    loop_body_runs_exactly_once rnd0 (some [[JSVal.str "A", JSVal.str "B"]])
      [JSVal.str "A", JSVal.str "B"] (by simp) 0⟩

/-- C5: whenever the candidate grouping collides with the previous grouping
(which in this program forces both the candidate grouping and the original
pool to be empty), the retry iteration of the do-while loop starts from a
state that equals (full original pool, discarded / empty candidate): the
working list it receives equals the original pool and the accumulated
grouping equals the empty grouping, and the loop then repeats the pairing
steps from the beginning. -/
theorem collision_restarts_from_original_state (rnd : Nat → Nat → Nat)
    (last_brief : Option (List (List JSVal))) (ps : List JSVal) (fuel : Nat)
    (h : hasSameGroup (buildGroups rnd 0 ps []) last_brief = true) :
    ps = [] ∧ buildGroups rnd 0 ps [] = [] ∧
    mainLoop rnd last_brief (fuel + 1) ps [] = mainLoop rnd last_brief fuel ps [] := by
  have hnil : buildGroups rnd 0 ps [] = [] := by
    by_contra hne
    rw [hasSameGroup_eq_false_of_ne_nil _ hne] at h
    exact Bool.false_ne_true h
  have hps : ps = [] := by
    by_contra hne
    exact buildGroups_ne_nil rnd ps hne hnil
  subst hps
  refine ⟨rfl, hnil, ?_⟩
  rw [mainLoop]
  simp only [h]
  rfl

theorem collision_restarts_from_original_state_witness :
    hasSameGroup (buildGroups rnd0 0 [] []) (some [[JSVal.str "A", JSVal.str "B"]]) = true ∧
    (([] : List JSVal) = [] ∧ buildGroups rnd0 0 [] [] = [] ∧
      mainLoop rnd0 (some [[JSVal.str "A", JSVal.str "B"]]) 1 [] [] =
        mainLoop rnd0 (some [[JSVal.str "A", JSVal.str "B"]]) 0 [] []) :=
  ⟨rfl, collision_restarts_from_original_state rnd0 (some [[JSVal.str "A", JSVal.str "B"]]) [] 0 rfl⟩

/-- C8: a missing state file is parsed as no previous grouping (`none`), the
collision check returns false against an absent previous grouping, and the
very first generated candidate grouping is accepted without any
regeneration. -/
theorem missing_state_file_first_run (rnd : Nat → Nat → Nat) (g : List (List JSVal))
    (ps : List JSVal) (fuel : Nat) :
    hasSameGroup g none = false ∧
    mainLoop rnd none (fuel + 1) ps [] = some (buildGroups rnd 0 ps []) := by
  refine ⟨rfl, ?_⟩
  rw [mainLoop]
  rfl

/-- C9: for an empty participant pool and a non-empty previous grouping the
program never terminates: `hasSameGroup` of the empty candidate grouping
against the non-empty previous grouping is vacuously true, no iteration of
the do-while loop changes any state, and the loop yields no result within
any number of iterations. -/
theorem empty_pool_never_terminates (rnd : Nat → Nat → Nat) (lb : List (List JSVal))
    (hlb : lb ≠ []) :
    hasSameGroup [] (some lb) = true ∧
    ∀ fuel, mainLoop rnd (some lb) fuel [] [] = none := by
  have htrue : hasSameGroup [] (some lb) = true := by
    cases lb with
    | nil => exact absurd rfl hlb
    | cons og t => rfl
  refine ⟨htrue, ?_⟩
  intro fuel
  induction fuel with
  | zero => rfl
  | succ fuel ih =>
    rw [mainLoop]
    have hbg : buildGroups rnd 0 ([] : List JSVal) [] = [] := rfl
    simp only [hbg, htrue, if_true]
    exact ih

theorem empty_pool_never_terminates_witness :
    ([[JSVal.str "A", JSVal.str "B"]] : List (List JSVal)) ≠ [] ∧
    mainLoop rnd0 (some [[JSVal.str "A", JSVal.str "B"]]) 5 [] [] = none :=
  ⟨by simp, (empty_pool_never_terminates rnd0 [[JSVal.str "A", JSVal.str "B"]] (by simp)).2 5⟩

/-- C6: for every even-length pool of unique participant identifier strings
and every valid random-index provider, the generated grouping contains
exactly pool-size / 2 pairs and every participant of the pool occurs in
exactly one pair. -/
theorem even_pool_partition (rnd : Nat → Nat → Nat) (hrnd : ValidRnd rnd)
    (ps : List String) (hnd : ps.Nodup) (hev : Even ps.length) :
    (buildGroups rnd 0 (ps.map JSVal.str) []).length = ps.length / 2 ∧
    ∀ x ∈ ps, (buildGroups rnd 0 (ps.map JSVal.str) []).countP
      (fun p => jsIncludes p (JSVal.str x)) = 1 := by
  obtain ⟨pairs, heq, hlen, _, hevn, _⟩ :=
    buildGroupsAux_partition rnd hrnd (ps.map JSVal.str).length (ps.map JSVal.str) 0 []
      (Nat.le_refl _)
  have hmaplen : (ps.map JSVal.str).length = ps.length := List.length_map _ _
  rw [buildGroups, heq, List.nil_append]
  have hperm := hevn (by rw [hmaplen]; exact hev)
  constructor
  · rw [hlen, hmaplen]
    obtain ⟨m, hm⟩ := hev
    omega
  · intro x hx
    have h1 : pairs.flatten.countP (fun e => sameValueZero e (JSVal.str x)) =
        (ps.map JSVal.str).countP (fun e => sameValueZero e (JSVal.str x)) :=
      hperm.countP_eq _
    have h2 : (ps.map JSVal.str).countP (fun e => sameValueZero e (JSVal.str x)) =
        ps.countP (fun s => s == x) := by
      rw [List.countP_map]
      rfl
    have h3 : ps.countP (fun s => s == x) = 1 := by
      have := List.count_eq_one_of_mem hnd hx
      rw [List.count_eq_countP] at this
      exact this
    have h4 : pairs.flatten.countP (fun e => sameValueZero e (JSVal.str x)) = 1 := by
      rw [h1, h2, h3]
    have h5 := countP_flatten_eq_one _ pairs h4
    simpa [jsIncludes] using h5

theorem even_pool_partition_witness :
    (["A", "B", "C", "D"] : List String).Nodup ∧
    Even (["A", "B", "C", "D"] : List String).length ∧
    (buildGroups rnd0 0 ((["A", "B", "C", "D"] : List String).map JSVal.str) []).length =
      (["A", "B", "C", "D"] : List String).length / 2 ∧
    (buildGroups rnd0 0 ((["A", "B", "C", "D"] : List String).map JSVal.str) []).countP
      (fun p => jsIncludes p (JSVal.str "A")) = 1 :=
  ⟨by decide, by decide,
    (even_pool_partition rnd0 rnd0_valid ["A", "B", "C", "D"] (by decide) (by decide)).1,
    (even_pool_partition rnd0 rnd0_valid ["A", "B", "C", "D"] (by decide) (by decide)).2 "A"
      (by decide)⟩

/-- C10: for every odd-length pool of participant identifier strings and
every valid random-index provider, no error is raised: the generated
grouping ends with a pair made of one remaining participant and the
`undefined` value (the splice of the empty working list yields no member),
and all earlier pairs are well-formed pairs of two participants of the
pool. -/
theorem odd_pool_last_pair_gets_undefined (rnd : Nat → Nat → Nat) (hrnd : ValidRnd rnd)
    (ps : List String) (hodd : ¬ Even ps.length) :
    ∃ (pairs0 : List (List JSVal)) (x : String),
      buildGroups rnd 0 (ps.map JSVal.str) [] = pairs0 ++ [[JSVal.str x, JSVal.undef]] ∧
      x ∈ ps ∧
      ∀ p ∈ pairs0, ∃ a b : String, a ∈ ps ∧ b ∈ ps ∧ p = [JSVal.str a, JSVal.str b] := by
  obtain ⟨pairs, heq, _, hshape, _, hoddc⟩ :=
    buildGroupsAux_partition rnd hrnd (ps.map JSVal.str).length (ps.map JSVal.str) 0 []
      (Nat.le_refl _)
  have hmaplen : (ps.map JSVal.str).length = ps.length := List.length_map _ _
  obtain ⟨pairs0, x, hsplit, hperm⟩ := hoddc (by rw [hmaplen]; exact hodd)
  have hmem : ∀ v ∈ pairs0.flatten ++ [x], ∃ s : String, s ∈ ps ∧ v = JSVal.str s := by
    intro v hv
    have hv2 : v ∈ ps.map JSVal.str := hperm.mem_iff.mp hv
    obtain ⟨s, hs, hsv⟩ := List.mem_map.mp hv2
    exact ⟨s, hs, hsv.symm⟩
  obtain ⟨x', hx', hxx⟩ := hmem x (List.mem_append_right _ (List.mem_singleton.mpr rfl))
  subst hxx
  refine ⟨pairs0, x', ?_, hx', ?_⟩
  · rw [buildGroups, heq, List.nil_append, hsplit]
  · intro p hp
    obtain ⟨a, b, hab⟩ := hshape p (by rw [hsplit]; exact List.mem_append_left _ hp)
    have hamem : a ∈ pairs0.flatten ++ [JSVal.str x'] := by
      refine List.mem_append_left _ (List.mem_flatten.mpr ⟨p, hp, ?_⟩)
      rw [hab]
      simp
    have hbmem : b ∈ pairs0.flatten ++ [JSVal.str x'] := by
      refine List.mem_append_left _ (List.mem_flatten.mpr ⟨p, hp, ?_⟩)
      rw [hab]
      simp
    obtain ⟨sa, hsa, rfl⟩ := hmem a hamem
    obtain ⟨sb, hsb, rfl⟩ := hmem b hbmem
    exact ⟨sa, sb, hsa, hsb, hab⟩

theorem odd_pool_last_pair_gets_undefined_witness :
    ¬ Even (["A", "B", "C"] : List String).length ∧
    (∃ (pairs0 : List (List JSVal)) (x : String),
      buildGroups rnd0 0 ((["A", "B", "C"] : List String).map JSVal.str) [] =
        pairs0 ++ [[JSVal.str x, JSVal.undef]] ∧
      x ∈ (["A", "B", "C"] : List String) ∧
      ∀ p ∈ pairs0, ∃ a b : String,
        a ∈ (["A", "B", "C"] : List String) ∧ b ∈ (["A", "B", "C"] : List String) ∧
        p = [JSVal.str a, JSVal.str b]) :=
  ⟨by decide, odd_pool_last_pair_gets_undefined rnd0 rnd0_valid ["A", "B", "C"] (by decide)⟩

/-- C1: contrary to the claimed no-collision property, the program can
return (and persist) a grouping that repeats a previous pair: on the pool
A, B, C, D with previous grouping containing the pairs (A, B) and (C, D),
the random draws that always return 0 make the program terminate at the
first iteration with the grouping of pairs (D, C) and (B, A), a grouping
whose pair (D, C) has both members co-occurring in the previous pair
(C, D) — it collides in the sense of the specification, as
`specCollision` witnesses, yet it is accepted. -/
theorem repeat_grouping_accepted :
    runProgram rnd0 [JSVal.str "A", JSVal.str "B", JSVal.str "C", JSVal.str "D"]
      (some [[JSVal.str "A", JSVal.str "B"], [JSVal.str "C", JSVal.str "D"]]) 1 =
      some [[JSVal.str "D", JSVal.str "C"], [JSVal.str "B", JSVal.str "A"]] ∧
    specCollision [[JSVal.str "D", JSVal.str "C"], [JSVal.str "B", JSVal.str "A"]]
      [[JSVal.str "A", JSVal.str "B"], [JSVal.str "C", JSVal.str "D"]] = true :=
  ⟨rfl, rfl⟩

/-- C2: the collision check is NOT equivalent to the narrow co-occurrence
predicate of the specification: on the grouping containing the single pair
(A, B) and the identical previous grouping, `hasSameGroup` (which is called
on the whole grouping, so it compares each pair array against the strings
of a previous pair and never finds it) returns false, while the
specification's predicate `specCollision` returns true. -/
theorem collision_check_differs_from_spec :
    hasSameGroup [[JSVal.str "A", JSVal.str "B"]] (some [[JSVal.str "A", JSVal.str "B"]]) = false ∧
    specCollision [[JSVal.str "A", JSVal.str "B"]] [[JSVal.str "A", JSVal.str "B"]] = true :=
  ⟨rfl, rfl⟩

/-- C4: contrary to the claimed non-termination risk for a 2-participant
pool whose only possible grouping collides with the previous one, the loop
terminates immediately there: on the pool A, B with previous grouping
containing the pair (A, B), the program returns the grouping with the
single pair (B, A) after a single iteration, even though that grouping
collides with the previous one in the sense of the specification. -/
theorem two_participant_pool_terminates :
    runProgram rnd0 [JSVal.str "A", JSVal.str "B"] (some [[JSVal.str "A", JSVal.str "B"]]) 1 =
      some [[JSVal.str "B", JSVal.str "A"]] ∧
    specCollision [[JSVal.str "B", JSVal.str "A"]] [[JSVal.str "A", JSVal.str "B"]] = true :=
  ⟨rfl, rfl⟩

/-- C7: idempotent persistence fails: a first run on the pool A, B
generates and persists the grouping with the single pair (B, A); the JSON
round-trip of the state file returns that grouping unchanged, yet
`hasSameGroup` between the generated grouping and the re-read grouping is
false — indeed `hasSameGroup` between any grouping and its own JSON
round-trip is always false. -/
theorem persisted_grouping_not_collision_equal :
    runProgram rnd0 [JSVal.str "A", JSVal.str "B"] none 1 =
      some [[JSVal.str "B", JSVal.str "A"]] ∧
    hasSameGroup [[JSVal.str "B", JSVal.str "A"]]
      (some (roundTripGrouping [[JSVal.str "B", JSVal.str "A"]])) = false ∧
    ∀ g : List (List JSVal), hasSameGroup g (some (roundTripGrouping g)) = false := by
  refine ⟨rfl, rfl, ?_⟩
  intro g
  cases g with
  | nil => rfl
  | cons p t => exact hasSameGroup_eq_false_of_ne_nil _ (List.cons_ne_nil p t) _
